import Mathlib

/-!
Verification of the BLE sniffer core (`sniffer.c`): the advertisement
decoder `parse_advertisement_data`, the bounded ring buffer
(`sniffer_enqueue_packet` / `sniffer_dequeue_packet`) and the ingest
callbacks (`sniffer_on_packet_received_ex` and its legacy wrapper).

Bytes are modelled as `Nat` values (< 256 in practice); the raw payload
memory is a `List Nat` read through `byteAt`, which also lets us track
exactly which indices the decoder touches.  Fixed C arrays holding a
meaningful prefix (`device_name`, `mfg_data`, `service_uuids`) are
modelled as the list of their meaningful bytes/entries.
-/

set_option maxHeartbeats 1000000

/-- `SNIFFER_BUFFER_SIZE` from sniffer.c -/
def SNIFFER_BUFFER_SIZE : Nat := 200

/-- BLE AD type constants from sniffer.c -/
def AD_TYPE_FLAGS : Nat := 0x01
def AD_TYPE_UUID16_INCOMPLETE : Nat := 0x02
def AD_TYPE_UUID16_COMPLETE : Nat := 0x03
def AD_TYPE_SHORT_NAME : Nat := 0x08
def AD_TYPE_COMPLETE_NAME : Nat := 0x09
def AD_TYPE_TX_POWER : Nat := 0x0A
def AD_TYPE_APPEARANCE : Nat := 0x19
def AD_TYPE_MFG_DATA : Nat := 0xFF

/-- Read the byte at index `i` of the memory `mem` (`payload[i]` in C). -/
def byteAt (mem : List Nat) (i : Nat) : Nat := mem.getD i 0

/-- C cast `(int8_t)v` of a byte `v`. -/
def toInt8 (v : Nat) : Int := if v < 128 then (v : Int) else (v : Int) - 256

/-- Little-endian 16-bit value `lo | (hi << 8)`. -/
def le16 (lo hi : Nat) : Nat := lo + 256 * hi

/-- Split a byte list into 2-byte little-endian groups (trailing odd byte
dropped), as the UUID16 loop does with `ad_data_len / 2` groups. -/
def pairsOf : List Nat → List Nat
  | lo :: hi :: rest => le16 lo hi :: pairsOf rest
  | _ => []

/-- The UUID16 append loop: append each group while fewer than 8 service
identifiers are held, then stop. -/
def addUuids (svc : List Nat) : List Nat → List Nat
  | [] => svc
  | p :: rest => if svc.length < 8 then addUuids (svc ++ [p]) rest else svc

/-- `ble_packet_t` from sniffer.h.  `device_name`, `mfg_data` and
`service_uuids` hold the meaningful prefix of the fixed C arrays;
`mfg_data_len` and `num_services` mirror the C length fields. -/
structure ble_packet where
  mac : List Nat
  rssi : Int
  channel : Nat
  timestamp : Nat
  payload_len : Nat
  payload : List Nat
  device_name : List Nat
  adv_type : Nat
  addr_type : Nat
  tx_power : Int
  appearance : Nat
  flags : Nat
  company_id : Nat
  mfg_data : List Nat
  mfg_data_len : Nat
  service_uuids : List Nat
  num_services : Nat
deriving DecidableEq

/-- A zero-initialised `ble_packet_t` (`ble_packet_t packet = {0}`). -/
def blePacketZero : ble_packet :=
  { mac := List.replicate 6 0, rssi := 0, channel := 0, timestamp := 0,
    payload_len := 0, payload := [], device_name := [], adv_type := 0,
    addr_type := 0, tx_power := 0, appearance := 0, flags := 0,
    company_id := 0, mfg_data := [], mfg_data_len := 0,
    service_uuids := [], num_services := 0 }

/-- The "Initialize optional fields" block at the top of
`parse_advertisement_data` (runs only when the early-return guard is
passed). -/
def initFields (b : ble_packet) : ble_packet :=
  { b with device_name := [], tx_power := -128, appearance := 0, flags := 0,
           company_id := 0, mfg_data := [], mfg_data_len := 0,
           service_uuids := [], num_services := 0 }

/-- The `ad_data_len` value bytes of the entry at offset `i`
(`ad_data = &payload[i+2]`). -/
def adData (mem : List Nat) (i n : Nat) : List Nat :=
  (List.range n).map (fun j => byteAt mem (i + 2 + j))

/-- The `switch (ad_type)` body of `parse_advertisement_data`: apply one
AD entry with type `t` and value bytes `d` to the packet. -/
def applyEntry (b : ble_packet) (t : Nat) (d : List Nat) : ble_packet :=
  if t = AD_TYPE_FLAGS then
    if 1 ≤ d.length then { b with flags := d.headD 0 } else b
  else if t = AD_TYPE_SHORT_NAME ∨ t = AD_TYPE_COMPLETE_NAME then
    { b with device_name := d.take 31 }
  else if t = AD_TYPE_TX_POWER then
    if 1 ≤ d.length then { b with tx_power := toInt8 (d.headD 0) } else b
  else if t = AD_TYPE_APPEARANCE then
    if 2 ≤ d.length then { b with appearance := le16 (d.getD 0 0) (d.getD 1 0) } else b
  else if t = AD_TYPE_UUID16_INCOMPLETE ∨ t = AD_TYPE_UUID16_COMPLETE then
    let svc := addUuids b.service_uuids (pairsOf d)
    { b with service_uuids := svc, num_services := svc.length }
  else if t = AD_TYPE_MFG_DATA then
    if 2 ≤ d.length then
      { b with company_id := le16 (d.getD 0 0) (d.getD 1 0),
               mfg_data := (d.drop 2).take 64,
               mfg_data_len := min (d.length - 2) 64 }
    else b
  else b

/-- The `while (i < payload_len - 1)` loop of `parse_advertisement_data`.
`len` is `payload_len`; the loop condition `i < payload_len - 1` (int
arithmetic) is `i + 1 < len` on `Nat`. -/
def parse_loop (mem : List Nat) (len : Nat) (i : Nat) (b : ble_packet) : ble_packet :=
  if _h1 : i + 1 < len then
    if _h2 : byteAt mem i = 0 ∨ len < i + byteAt mem i then b
    else
      parse_loop mem len (i + byteAt mem i + 1)
        (applyEntry b (byteAt mem (i + 1)) (adData mem i (byteAt mem i - 1)))
  else b
termination_by len - i
decreasing_by simp only [not_or] at _h2; omega

/-- `parse_advertisement_data` from sniffer.c (non-null pointers assumed;
the null checks are not representable for by-value arguments).  On
`payload_len = 0` it returns before touching any field. -/
def parse_advertisement_data (mem : List Nat) (len : Nat) (b : ble_packet) : ble_packet :=
  if len = 0 then b else parse_loop mem len 0 (initFields b)

/-- The well-formed entries `(ad_type, value bytes)` scanned left to
right by the loop, stopping at the first malformed length byte. -/
def chopEntries (mem : List Nat) (len : Nat) (i : Nat) : List (Nat × List Nat) :=
  if _h1 : i + 1 < len then
    if _h2 : byteAt mem i = 0 ∨ len < i + byteAt mem i then []
    else
      (byteAt mem (i + 1), adData mem i (byteAt mem i - 1)) ::
        chopEntries mem len (i + byteAt mem i + 1)
  else []
termination_by len - i
decreasing_by simp only [not_or] at _h2; omega

/-- Fold a list of decoded entries over a packet. -/
def applyEntries (b : ble_packet) (es : List (Nat × List Nat)) : ble_packet :=
  es.foldl (fun b e => applyEntry b e.1 e.2) b

/-- All 16-bit service identifiers offered by an entry list, in scan
order. -/
def uuidsOfEntries (es : List (Nat × List Nat)) : List Nat :=
  es.foldr (fun e acc =>
    if e.1 = AD_TYPE_UUID16_INCOMPLETE ∨ e.1 = AD_TYPE_UUID16_COMPLETE then
      pairsOf e.2 ++ acc
    else acc) []

/-- Indices of `payload` read by the `switch` body for an entry at offset
`i` with type `t` and `ad_data_len = n`, given the current packet state
(the UUID16 loop stops reading once the list is full). -/
def entryReads (b : ble_packet) (i t n : Nat) : List Nat :=
  if t = AD_TYPE_FLAGS then
    if 1 ≤ n then [i + 2] else []
  else if t = AD_TYPE_SHORT_NAME ∨ t = AD_TYPE_COMPLETE_NAME then
    (List.range (min n 31)).map (fun j => i + 2 + j)
  else if t = AD_TYPE_TX_POWER then
    if 1 ≤ n then [i + 2] else []
  else if t = AD_TYPE_APPEARANCE then
    if 2 ≤ n then [i + 2, i + 3] else []
  else if t = AD_TYPE_UUID16_INCOMPLETE ∨ t = AD_TYPE_UUID16_COMPLETE then
    (List.range (2 * min (n / 2) (8 - b.num_services))).map (fun j => i + 2 + j)
  else if t = AD_TYPE_MFG_DATA then
    if 2 ≤ n then (List.range (2 + min (n - 2) 64)).map (fun j => i + 2 + j) else []
  else []

/-- Indices of `payload` read by the parse loop from offset `i`. -/
def parse_loop_reads (mem : List Nat) (len : Nat) (i : Nat) (b : ble_packet) : List Nat :=
  if _h1 : i + 1 < len then
    if _h2 : byteAt mem i = 0 ∨ len < i + byteAt mem i then [i]
    else
      i :: (i + 1) ::
        (entryReads b i (byteAt mem (i + 1)) (byteAt mem i - 1) ++
          parse_loop_reads mem len (i + byteAt mem i + 1)
            (applyEntry b (byteAt mem (i + 1)) (adData mem i (byteAt mem i - 1))))
  else []
termination_by len - i
decreasing_by simp only [not_or] at _h2; omega

/-- Indices of `payload` read by `parse_advertisement_data`. -/
def parse_reads (mem : List Nat) (len : Nat) (b : ble_packet) : List Nat :=
  if len = 0 then [] else parse_loop_reads mem len 0 (initFields b)

/-- `2 ^ 32`: the statistics counters `packet_count` and
`overflow_count` are `uint32_t` in sniffer.c, so every increment is
taken modulo this value. -/
def UINT32_MOD : Nat := 4294967296

/-- `packet_buffer_t` from sniffer.c.  `packets` is the backing array
(indexed modulo `SNIFFER_BUFFER_SIZE`); `overflow_count` and
`packet_count` hold the stored `uint32_t` values (always below
`UINT32_MOD`). -/
structure packet_buffer_t where
  packets : Nat → ble_packet
  head : Nat
  tail : Nat
  count : Nat
  overflow_count : Nat
  packet_count : Nat

/-- `g_packet_buffer` right after `sniffer_init` (`memset 0`). -/
def initBuffer : packet_buffer_t :=
  { packets := fun _ => blePacketZero, head := 0, tail := 0, count := 0,
    overflow_count := 0, packet_count := 0 }

/-- `sniffer_enqueue_packet` from sniffer.c, as a state transformer.
The `uint32_t` counter increments wrap modulo `UINT32_MOD`. -/
def sniffer_enqueue_packet (p : ble_packet) (b : packet_buffer_t) : packet_buffer_t :=
  let b1 :=
    if SNIFFER_BUFFER_SIZE ≤ b.count then
      { b with overflow_count := (b.overflow_count + 1) % UINT32_MOD,
               tail := (b.tail + 1) % SNIFFER_BUFFER_SIZE }
    else
      { b with count := b.count + 1 }
  { b1 with packets := fun k => if k = b1.head then p else b1.packets k,
            head := (b1.head + 1) % SNIFFER_BUFFER_SIZE,
            packet_count := (b1.packet_count + 1) % UINT32_MOD }

/-- `sniffer_dequeue_packet` from sniffer.c: returns the packet copied
out (`none` when the buffer is empty, i.e. C result 0) together with the
new buffer state. -/
def sniffer_dequeue_packet (b : packet_buffer_t) : Option ble_packet × packet_buffer_t :=
  if 0 < b.count then
    (some (b.packets b.tail),
     { b with tail := (b.tail + 1) % SNIFFER_BUFFER_SIZE, count := b.count - 1 })
  else (none, b)

/-- Representation invariant of the ring buffer (holds for every state
reachable from `initBuffer`). -/
def bufferValid (b : packet_buffer_t) : Prop :=
  b.count ≤ SNIFFER_BUFFER_SIZE ∧ b.tail < SNIFFER_BUFFER_SIZE ∧
    b.head = (b.tail + b.count) % SNIFFER_BUFFER_SIZE

instance (b : packet_buffer_t) : Decidable (bufferValid b) := by
  unfold bufferValid; infer_instance

/-- Abstraction: the logical FIFO content, oldest first. -/
def toListModel (b : packet_buffer_t) : List ble_packet :=
  (List.range b.count).map (fun k => b.packets ((b.tail + k) % SNIFFER_BUFFER_SIZE))

/-- The record built by `sniffer_on_packet_received_ex` before parsing:
metadata copied verbatim, payload copied byte for byte, then the decoded
fields filled in by `parse_advertisement_data`. -/
def build_packet (mac : List Nat) (rssi : Int) (channel timestamp : Nat)
    (payload : List Nat) (payload_len adv_type addr_type : Nat) : ble_packet :=
  parse_advertisement_data payload payload_len
    { blePacketZero with
        mac := (List.range 6).map (byteAt mac),
        rssi := rssi, channel := channel, timestamp := timestamp,
        payload_len := payload_len,
        payload := (List.range payload_len).map (byteAt payload),
        adv_type := adv_type, addr_type := addr_type }

/-- `sniffer_on_packet_received_ex` from sniffer.c.  Null pointers are
modelled by `none`. -/
def sniffer_on_packet_received_ex (mac : Option (List Nat)) (rssi : Int)
    (channel timestamp : Nat) (payload : Option (List Nat))
    (payload_len adv_type addr_type : Nat) (b : packet_buffer_t) : packet_buffer_t :=
  match mac, payload with
  | some m, some pl =>
      if payload_len = 0 then b
      else
        sniffer_enqueue_packet
          (build_packet m rssi channel timestamp pl payload_len adv_type addr_type) b
  | _, _ => b

/-- Legacy `sniffer_on_packet_received`: delegates to the extended
callback with `adv_type = 0`, `addr_type = 0`. -/
def sniffer_on_packet_received (mac : Option (List Nat)) (rssi : Int)
    (channel timestamp : Nat) (payload : Option (List Nat))
    (payload_len : Nat) (b : packet_buffer_t) : packet_buffer_t :=
  sniffer_on_packet_received_ex mac rssi channel timestamp payload payload_len 0 0 b

/-- Repeatedly dequeue `fuel` times, collecting the returned packets and
stopping at the first empty signal. -/
def drainLoop : Nat → packet_buffer_t → List ble_packet × packet_buffer_t
  | 0, b => ([], b)
  | fuel + 1, b =>
      match sniffer_dequeue_packet b with
      | (none, b') => ([], b')
      | (some p, b') =>
          let r := drainLoop fuel b'
          (p :: r.1, r.2)

/-- Dequeue until empty. -/
def drainAll (b : packet_buffer_t) : List ble_packet × packet_buffer_t :=
  drainLoop b.count b

/-- Push a list of records in order. -/
def pushList (l : List ble_packet) (b : packet_buffer_t) : packet_buffer_t :=
  l.foldl (fun b p => sniffer_enqueue_packet p b) b

/-- One producer/consumer operation on the buffer. -/
inductive sniffer_op where
  | enq (p : ble_packet)
  | deq
deriving DecidableEq

/-- Apply one operation. -/
def stepOp (op : sniffer_op) (b : packet_buffer_t) : packet_buffer_t :=
  match op with
  | .enq p => sniffer_enqueue_packet p b
  | .deq => (sniffer_dequeue_packet b).2

/-- Run a sequence of operations. -/
def runOps (ops : List sniffer_op) (b : packet_buffer_t) : packet_buffer_t :=
  ops.foldl (fun b op => stepOp op b) b

/-- Number of `enq` operations in a sequence. -/
def countPushes (ops : List sniffer_op) : Nat :=
  ops.countP (fun op => match op with | .enq _ => true | .deq => false)

/-- Number of `enq` operations performed while the buffer already held
`SNIFFER_BUFFER_SIZE` records, along a run starting from `b`. -/
def countOverflowPushes (b : packet_buffer_t) : List sniffer_op → Nat
  | [] => 0
  | op :: ops =>
      (match op with
       | .enq _ => if b.count = SNIFFER_BUFFER_SIZE then 1 else 0
       | .deq => 0) + countOverflowPushes (stepOp op b) ops

/-- A concrete buffer state at capacity: every slot holds the zero
record, occupancy 200 (used to exercise the full-buffer push path). -/
def fullBuffer : packet_buffer_t :=
  { packets := fun _ => blePacketZero, head := 0, tail := 0,
    count := SNIFFER_BUFFER_SIZE, overflow_count := 0,
    packet_count := SNIFFER_BUFFER_SIZE }

/-! ### Decoder lemmas -/

theorem applyEntries_nil (b : ble_packet) : applyEntries b [] = b := rfl

theorem applyEntries_cons (b : ble_packet) (e : Nat × List Nat) (es : List (Nat × List Nat)) :
    applyEntries b (e :: es) = applyEntries (applyEntry b e.1 e.2) es := rfl

theorem applyEntries_append (b : ble_packet) (es fs : List (Nat × List Nat)) :
    applyEntries b (es ++ fs) = applyEntries (applyEntries b es) fs := by
  simp [applyEntries, List.foldl_append]

/-- The parse loop from any offset equals folding the well-formed entries
scanned from that offset. -/
theorem parse_loop_eq_applyEntries (mem : List Nat) (len : Nat) :
    ∀ n i b, len - i ≤ n →
      parse_loop mem len i b = applyEntries b (chopEntries mem len i) := by
  intro n
  induction n with
  | zero =>
      intro i b h
      rw [parse_loop, chopEntries]
      have h1 : ¬ (i + 1 < len) := by omega
      rw [dif_neg h1, dif_neg h1, applyEntries_nil]
  | succ n ih =>
      intro i b h
      rw [parse_loop, chopEntries]
      by_cases h1 : i + 1 < len
      · rw [dif_pos h1, dif_pos h1]
        by_cases h2 : byteAt mem i = 0 ∨ len < i + byteAt mem i
        · rw [dif_pos h2, dif_pos h2, applyEntries_nil]
        · rw [dif_neg h2, dif_neg h2, applyEntries_cons]
          apply ih
          simp only [not_or] at h2
          omega
      · rw [dif_neg h1, dif_neg h1, applyEntries_nil]

theorem parse_loop_chop (mem : List Nat) (len i : Nat) (b : ble_packet) :
    parse_loop mem len i b = applyEntries b (chopEntries mem len i) :=
  parse_loop_eq_applyEntries mem len (len - i) i b le_rfl

/-- The loop returns its accumulated state unchanged at a malformed
length byte. -/
theorem parse_loop_stop (mem : List Nat) (len i : Nat) (b : ble_packet)
    (h : byteAt mem i = 0 ∨ len < i + byteAt mem i) :
    parse_loop mem len i b = b := by
  rw [parse_loop]
  by_cases h1 : i + 1 < len
  · rw [dif_pos h1, dif_pos h]
  · rw [dif_neg h1]

/-- The UUID16 append loop keeps the first 8 identifiers overall. -/
theorem addUuids_eq_take (q : List Nat) :
    ∀ s : List Nat, s.length ≤ 8 → addUuids s q = (s ++ q).take 8 := by
  induction q with
  | nil =>
      intro s hs
      simp [addUuids, List.take_of_length_le hs]
  | cons p rest ih =>
      intro s hs
      rw [addUuids]
      by_cases hlt : s.length < 8
      · rw [if_pos hlt, ih (s ++ [p]) (by simp; omega)]
        simp [List.append_assoc]
      · rw [if_neg hlt]
        have h8 : s.length = 8 := by omega
        rw [List.take_append_eq_append_take]
        simp [h8, List.take_of_length_le (le_of_eq h8)]

theorem applyEntry_uuid (b : ble_packet) (t : Nat) (d : List Nat)
    (ht : t = AD_TYPE_UUID16_INCOMPLETE ∨ t = AD_TYPE_UUID16_COMPLETE) :
    (applyEntry b t d).service_uuids = addUuids b.service_uuids (pairsOf d) := by
  rcases ht with ht | ht <;> subst ht <;>
    simp [applyEntry, AD_TYPE_FLAGS, AD_TYPE_UUID16_INCOMPLETE, AD_TYPE_UUID16_COMPLETE,
      AD_TYPE_SHORT_NAME, AD_TYPE_COMPLETE_NAME, AD_TYPE_TX_POWER, AD_TYPE_APPEARANCE,
      AD_TYPE_MFG_DATA]

theorem applyEntry_non_uuid (b : ble_packet) (t : Nat) (d : List Nat)
    (ht : ¬ (t = AD_TYPE_UUID16_INCOMPLETE ∨ t = AD_TYPE_UUID16_COMPLETE)) :
    (applyEntry b t d).service_uuids = b.service_uuids := by
  unfold applyEntry
  split_ifs <;> first | rfl | (exfalso; exact ht (by assumption))

/-- Folding entries keeps, in `service_uuids`, the first 8 of the prefix
stream plus all identifiers offered, in scan order. -/
theorem applyEntries_uuids (es : List (Nat × List Nat)) :
    ∀ (b : ble_packet) (pref : List Nat), b.service_uuids = pref.take 8 →
      (applyEntries b es).service_uuids = (pref ++ uuidsOfEntries es).take 8 := by
  induction es with
  | nil =>
      intro b pref hb
      simpa [applyEntries, uuidsOfEntries] using hb
  | cons e es ih =>
      intro b pref hb
      rw [applyEntries_cons]
      by_cases ht : e.1 = AD_TYPE_UUID16_INCOMPLETE ∨ e.1 = AD_TYPE_UUID16_COMPLETE
      · have h1 : (applyEntry b e.1 e.2).service_uuids = (pref ++ pairsOf e.2).take 8 := by
          rw [applyEntry_uuid b e.1 e.2 ht, hb,
            addUuids_eq_take (pairsOf e.2) (pref.take 8) (by simp)]
          by_cases hp : pref.length ≤ 8
          · rw [List.take_of_length_le hp]
          · rw [List.take_append_of_le_length (by simp; omega),
              List.take_append_of_le_length (by omega), List.take_take]
            simp
        rw [ih _ (pref ++ pairsOf e.2) h1]
        have : uuidsOfEntries (e :: es) = pairsOf e.2 ++ uuidsOfEntries es := by
          simp [uuidsOfEntries, ht]
        rw [this, List.append_assoc]
      · have h1 : (applyEntry b e.1 e.2).service_uuids = pref.take 8 := by
          rw [applyEntry_non_uuid b e.1 e.2 ht, hb]
        rw [ih _ pref h1]
        have : uuidsOfEntries (e :: es) = uuidsOfEntries es := by
          simp [uuidsOfEntries, ht]
        rw [this]

/-! ### Ring-buffer lemmas -/

theorem toListModel_length (b : packet_buffer_t) : (toListModel b).length = b.count := by
  simp [toListModel]

theorem enqueue_eq_of_full (b : packet_buffer_t) (p : ble_packet)
    (hcond : SNIFFER_BUFFER_SIZE ≤ b.count) :
    sniffer_enqueue_packet p b =
      { packets := fun k => if k = b.head then p else b.packets k,
        head := (b.head + 1) % SNIFFER_BUFFER_SIZE,
        tail := (b.tail + 1) % SNIFFER_BUFFER_SIZE,
        count := b.count,
        overflow_count := (b.overflow_count + 1) % UINT32_MOD,
        packet_count := (b.packet_count + 1) % UINT32_MOD } := by
  simp [sniffer_enqueue_packet, hcond]

theorem enqueue_eq_of_not_full (b : packet_buffer_t) (p : ble_packet)
    (hcond : ¬ SNIFFER_BUFFER_SIZE ≤ b.count) :
    sniffer_enqueue_packet p b =
      { packets := fun k => if k = b.head then p else b.packets k,
        head := (b.head + 1) % SNIFFER_BUFFER_SIZE,
        tail := b.tail,
        count := b.count + 1,
        overflow_count := b.overflow_count,
        packet_count := (b.packet_count + 1) % UINT32_MOD } := by
  simp [sniffer_enqueue_packet, hcond]

/-- `sniffer_enqueue_packet` on a non-full buffer: appends the record,
no overflow. -/
theorem enqueue_not_full (b : packet_buffer_t) (p : ble_packet)
    (h : bufferValid b) (hc : b.count < SNIFFER_BUFFER_SIZE) :
    bufferValid (sniffer_enqueue_packet p b) ∧
    toListModel (sniffer_enqueue_packet p b) = toListModel b ++ [p] ∧
    (sniffer_enqueue_packet p b).count = b.count + 1 ∧
    (sniffer_enqueue_packet p b).tail = b.tail ∧
    (sniffer_enqueue_packet p b).overflow_count = b.overflow_count ∧
    (sniffer_enqueue_packet p b).packet_count = (b.packet_count + 1) % UINT32_MOD := by
  obtain ⟨h1, h2, h3⟩ := h
  rw [enqueue_eq_of_not_full b p (by omega)]
  refine ⟨⟨?_, ?_, ?_⟩, ?_, rfl, rfl, rfl, rfl⟩
  · show b.count + 1 ≤ SNIFFER_BUFFER_SIZE
    omega
  · show b.tail < SNIFFER_BUFFER_SIZE
    exact h2
  · show (b.head + 1) % SNIFFER_BUFFER_SIZE = (b.tail + (b.count + 1)) % SNIFFER_BUFFER_SIZE
    simp only [SNIFFER_BUFFER_SIZE] at h3 ⊢
    omega
  · simp only [toListModel]
    simp only [SNIFFER_BUFFER_SIZE] at h1 h2 h3 hc ⊢
    rw [List.range_succ, List.map_append, List.map_cons, List.map_nil]
    congr 1
    · apply List.map_congr_left
      intro k hk
      rw [List.mem_range] at hk
      rw [if_neg (by omega)]
    · rw [if_pos (by omega)]

/-- `sniffer_enqueue_packet` on a full buffer: evicts the oldest record,
counts the overflow, appends the new record. -/
theorem enqueue_full (b : packet_buffer_t) (p : ble_packet)
    (h : bufferValid b) (hc : b.count = SNIFFER_BUFFER_SIZE) :
    bufferValid (sniffer_enqueue_packet p b) ∧
    toListModel (sniffer_enqueue_packet p b) = (toListModel b).drop 1 ++ [p] ∧
    (sniffer_enqueue_packet p b).count = SNIFFER_BUFFER_SIZE ∧
    (sniffer_enqueue_packet p b).tail = (b.tail + 1) % SNIFFER_BUFFER_SIZE ∧
    (sniffer_enqueue_packet p b).overflow_count = (b.overflow_count + 1) % UINT32_MOD ∧
    (sniffer_enqueue_packet p b).packet_count = (b.packet_count + 1) % UINT32_MOD := by
  obtain ⟨h1, h2, h3⟩ := h
  rw [enqueue_eq_of_full b p (by omega)]
  have hhead : b.head = b.tail := by
    simp only [SNIFFER_BUFFER_SIZE] at h2 h3 hc
    omega
  have hdrop : (toListModel b).drop 1 =
      (List.range 199).map (fun k => b.packets ((b.tail + 1 + k) % 200)) := by
    simp only [toListModel, hc, SNIFFER_BUFFER_SIZE]
    rw [show (200 : Nat) = 199 + 1 from rfl, List.range_succ_eq_map]
    simp only [List.map_cons, List.drop_succ_cons, List.drop_zero, List.map_map]
    apply List.map_congr_left
    intro k _
    simp only [Function.comp_apply]
    congr 1
    omega
  refine ⟨⟨?_, ?_, ?_⟩, ?_, hc, rfl, rfl, rfl⟩
  · show b.count ≤ SNIFFER_BUFFER_SIZE
    omega
  · show (b.tail + 1) % SNIFFER_BUFFER_SIZE < SNIFFER_BUFFER_SIZE
    simp only [SNIFFER_BUFFER_SIZE]
    omega
  · show (b.head + 1) % SNIFFER_BUFFER_SIZE =
      ((b.tail + 1) % SNIFFER_BUFFER_SIZE + b.count) % SNIFFER_BUFFER_SIZE
    simp only [SNIFFER_BUFFER_SIZE] at hc h2 hhead ⊢
    rw [hhead, hc]
    omega
  · rw [hdrop]
    simp only [toListModel]
    simp only [hc, SNIFFER_BUFFER_SIZE] at h2 h3 hhead ⊢
    rw [show (200 : Nat) = 199 + 1 from rfl, List.range_succ, List.map_append,
      List.map_cons, List.map_nil]
    congr 1
    · apply List.map_congr_left
      intro k hk
      rw [List.mem_range] at hk
      rw [if_neg (by rw [hhead]; omega)]
      congr 1
      omega
    · rw [if_pos (by rw [hhead]; omega)]

theorem dequeue_eq_of_pos (b : packet_buffer_t) (hc : 0 < b.count) :
    sniffer_dequeue_packet b = (some (b.packets b.tail),
      { b with tail := (b.tail + 1) % SNIFFER_BUFFER_SIZE, count := b.count - 1 }) := by
  simp [sniffer_dequeue_packet, hc]

/-- `sniffer_dequeue_packet` on a non-empty buffer returns the oldest
record and removes exactly it; counters are untouched. -/
theorem dequeue_pos (b : packet_buffer_t) (h : bufferValid b) (hc : 0 < b.count) :
    (sniffer_dequeue_packet b).1 = some (b.packets b.tail) ∧
    bufferValid (sniffer_dequeue_packet b).2 ∧
    toListModel b = b.packets b.tail :: toListModel (sniffer_dequeue_packet b).2 ∧
    (sniffer_dequeue_packet b).2.count = b.count - 1 ∧
    (sniffer_dequeue_packet b).2.overflow_count = b.overflow_count ∧
    (sniffer_dequeue_packet b).2.packet_count = b.packet_count := by
  obtain ⟨h1, h2, h3⟩ := h
  rw [dequeue_eq_of_pos b hc]
  refine ⟨rfl, ⟨?_, ?_, ?_⟩, ?_, rfl, rfl, rfl⟩
  · show b.count - 1 ≤ SNIFFER_BUFFER_SIZE
    omega
  · show (b.tail + 1) % SNIFFER_BUFFER_SIZE < SNIFFER_BUFFER_SIZE
    simp only [SNIFFER_BUFFER_SIZE]
    omega
  · show b.head = ((b.tail + 1) % SNIFFER_BUFFER_SIZE + (b.count - 1)) % SNIFFER_BUFFER_SIZE
    simp only [SNIFFER_BUFFER_SIZE] at h3 ⊢
    omega
  · simp only [toListModel]
    simp only [SNIFFER_BUFFER_SIZE] at h2 ⊢
    rw [show b.count = (b.count - 1) + 1 from by omega, List.range_succ_eq_map]
    simp only [Nat.add_sub_cancel, List.map_cons, List.map_map]
    congr 1
    · congr 1
      omega
    · apply List.map_congr_left
      intro k _
      simp only [Function.comp_apply]
      congr 1
      omega

/-- `sniffer_dequeue_packet` on an empty buffer signals empty and leaves
the state unchanged. -/
theorem dequeue_zero (b : packet_buffer_t) (hc : b.count = 0) :
    sniffer_dequeue_packet b = (none, b) := by
  simp [sniffer_dequeue_packet, hc]

theorem initBuffer_valid : bufferValid initBuffer := by
  refine ⟨?_, ?_, ?_⟩ <;> simp [initBuffer, SNIFFER_BUFFER_SIZE]

theorem toListModel_initBuffer : toListModel initBuffer = [] := by
  simp [toListModel, initBuffer]

theorem pushList_append_one (l : List ble_packet) (a : ble_packet) (b : packet_buffer_t) :
    pushList (l ++ [a]) b = sniffer_enqueue_packet a (pushList l b) := by
  simp [pushList, List.foldl_append]

/-- Pushing any sequence of records into the freshly initialised buffer
leaves exactly the most recent `SNIFFER_BUFFER_SIZE` of them, in order. -/
theorem pushList_spec (L : List ble_packet) :
    bufferValid (pushList L initBuffer) ∧
    toListModel (pushList L initBuffer) = L.drop (L.length - SNIFFER_BUFFER_SIZE) ∧
    (pushList L initBuffer).count = min L.length SNIFFER_BUFFER_SIZE := by
  induction L using List.reverseRecOn with
  | nil =>
      refine ⟨initBuffer_valid, ?_, ?_⟩ <;>
        simp [toListModel, pushList, initBuffer, SNIFFER_BUFFER_SIZE]
  | append_singleton l a ih =>
      obtain ⟨ihv, ihl, ihc⟩ := ih
      rw [pushList_append_one]
      by_cases hfull : l.length < SNIFFER_BUFFER_SIZE
      · have hc : (pushList l initBuffer).count < SNIFFER_BUFFER_SIZE := by omega
        obtain ⟨v', l', c', _, _, _⟩ := enqueue_not_full (pushList l initBuffer) a ihv hc
        refine ⟨v', ?_, ?_⟩
        · rw [l', ihl]
          simp only [SNIFFER_BUFFER_SIZE, List.length_append, List.length_cons,
            List.length_nil] at hfull ⊢
          rw [show l.length - 200 = 0 from by omega, show l.length + 0 + 1 - 200 = 0 from by omega]
          simp
        · rw [c', ihc]
          simp only [SNIFFER_BUFFER_SIZE, List.length_append, List.length_cons,
            List.length_nil] at hfull ⊢
          omega
      · have hc : (pushList l initBuffer).count = SNIFFER_BUFFER_SIZE := by
          simp only [SNIFFER_BUFFER_SIZE] at *
          omega
        obtain ⟨v', l', c', _, _, _⟩ := enqueue_full (pushList l initBuffer) a ihv hc
        refine ⟨v', ?_, ?_⟩
        · rw [l', ihl, List.drop_drop,
            List.drop_append_of_le_length (by
              simp only [SNIFFER_BUFFER_SIZE, List.length_append, List.length_cons,
                List.length_nil] at hfull ⊢
              omega)]
          have hidx : l.length - SNIFFER_BUFFER_SIZE + 1 =
              (l ++ [a]).length - SNIFFER_BUFFER_SIZE := by
            simp only [SNIFFER_BUFFER_SIZE, List.length_append, List.length_cons,
              List.length_nil] at hfull ⊢
            omega
          rw [hidx]
        · rw [c']
          simp only [SNIFFER_BUFFER_SIZE, List.length_append, List.length_cons,
            List.length_nil] at hfull ⊢
          omega

/-- Draining a valid buffer with fuel equal to its occupancy yields the
logical FIFO content and empties the buffer without touching counters. -/
theorem drainLoop_spec : ∀ (n : Nat) (b : packet_buffer_t), bufferValid b → b.count = n →
    (drainLoop n b).1 = toListModel b ∧
    bufferValid (drainLoop n b).2 ∧
    (drainLoop n b).2.count = 0 ∧
    (drainLoop n b).2.overflow_count = b.overflow_count ∧
    (drainLoop n b).2.packet_count = b.packet_count := by
  intro n
  induction n with
  | zero =>
      intro b hv hc
      refine ⟨?_, hv, hc, rfl, rfl⟩
      simp [toListModel, hc, drainLoop]
  | succ n ih =>
      intro b hv hc
      obtain ⟨hd1, hd2, hd3, hd4, hd5, hd6⟩ := dequeue_pos b hv (by omega)
      have hpair : sniffer_dequeue_packet b =
          (some (b.packets b.tail), (sniffer_dequeue_packet b).2) := by
        rw [← hd1]
      obtain ⟨ih1, ih2, ih3, ih4, ih5⟩ := ih (sniffer_dequeue_packet b).2 hd2 (by omega)
      simp only [drainLoop]
      rw [hpair]
      simp only
      refine ⟨?_, ih2, ih3, by rw [ih4, hd5], by rw [ih5, hd6]⟩
  -- content
      rw [hd3, ih1]

theorem stepOp_enq (p : ble_packet) (b : packet_buffer_t) :
    stepOp (.enq p) b = sniffer_enqueue_packet p b := rfl

theorem stepOp_deq (b : packet_buffer_t) :
    stepOp .deq b = (sniffer_dequeue_packet b).2 := rfl

theorem countPushes_cons_enq (p : ble_packet) (ops : List sniffer_op) :
    countPushes (.enq p :: ops) = countPushes ops + 1 := by
  simp [countPushes]

theorem countPushes_cons_deq (ops : List sniffer_op) :
    countPushes (.deq :: ops) = countPushes ops := by
  simp [countPushes]

theorem countOverflowPushes_cons_enq (b : packet_buffer_t) (p : ble_packet)
    (ops : List sniffer_op) :
    countOverflowPushes b (.enq p :: ops) =
      (if b.count = SNIFFER_BUFFER_SIZE then 1 else 0) +
        countOverflowPushes (stepOp (.enq p) b) ops := rfl

theorem countOverflowPushes_cons_deq (b : packet_buffer_t) (ops : List sniffer_op) :
    countOverflowPushes b (.deq :: ops) = countOverflowPushes (stepOp .deq b) ops := by
  simp [countOverflowPushes]

theorem runOps_cons (op : sniffer_op) (ops : List sniffer_op) (b : packet_buffer_t) :
    runOps (op :: ops) b = runOps ops (stepOp op b) := by
  simp [runOps]

/-- The counter updates of one enqueue: `packet_count` always advances
by one modulo `UINT32_MOD`; `overflow_count` advances the same way
exactly when the buffer was at capacity. -/
theorem enqueue_counts (b : packet_buffer_t) (p : ble_packet) :
    (sniffer_enqueue_packet p b).packet_count = (b.packet_count + 1) % UINT32_MOD ∧
    (sniffer_enqueue_packet p b).overflow_count =
      (if SNIFFER_BUFFER_SIZE ≤ b.count then (b.overflow_count + 1) % UINT32_MOD
       else b.overflow_count) := by
  by_cases hfull : SNIFFER_BUFFER_SIZE ≤ b.count
  · rw [enqueue_eq_of_full b p hfull, if_pos hfull]
    exact ⟨rfl, rfl⟩
  · rw [enqueue_eq_of_not_full b p hfull, if_neg hfull]
    exact ⟨rfl, rfl⟩

/-- One step never decreases either stored counter as long as the
increment stays below the `uint32_t` wrap point. -/
theorem stepOp_mono_below_wrap (op : sniffer_op) (b : packet_buffer_t) :
    (b.packet_count + 1 < UINT32_MOD → b.packet_count ≤ (stepOp op b).packet_count) ∧
    (b.overflow_count + 1 < UINT32_MOD → b.overflow_count ≤ (stepOp op b).overflow_count) := by
  cases op with
  | enq p =>
      obtain ⟨hp, ho⟩ := enqueue_counts b p
      rw [stepOp_enq]
      constructor
      · intro h
        rw [hp]
        simp only [UINT32_MOD] at h ⊢
        omega
      · intro h
        rw [ho]
        split_ifs
        · simp only [UINT32_MOD] at h ⊢
          omega
        · exact le_refl _
  | deq =>
      by_cases hpos : 0 < b.count
      · rw [stepOp_deq, dequeue_eq_of_pos b hpos]
        exact ⟨fun _ => le_refl _, fun _ => le_refl _⟩
      · rw [stepOp_deq, dequeue_zero b (by omega)]
        exact ⟨fun _ => le_refl _, fun _ => le_refl _⟩

/-- Along any run from a valid state whose stored counters are in
`uint32_t` range, `packet_count` tracks the number of pushes modulo
`UINT32_MOD` and `overflow_count` tracks the number of pushes issued at
capacity modulo `UINT32_MOD`. -/
theorem runOps_counters : ∀ (ops : List sniffer_op) (b : packet_buffer_t), bufferValid b →
    b.packet_count < UINT32_MOD → b.overflow_count < UINT32_MOD →
    bufferValid (runOps ops b) ∧
    (runOps ops b).packet_count = (b.packet_count + countPushes ops) % UINT32_MOD ∧
    (runOps ops b).overflow_count =
      (b.overflow_count + countOverflowPushes b ops) % UINT32_MOD := by
  intro ops
  induction ops with
  | nil =>
      intro b hv hbp hbo
      refine ⟨hv, ?_, ?_⟩
      · simp [runOps, countPushes, Nat.mod_eq_of_lt hbp]
      · simp [runOps, countOverflowPushes, Nat.mod_eq_of_lt hbo]
  | cons op ops ih =>
      intro b hv hbp hbo
      have hM : 0 < UINT32_MOD := by simp [UINT32_MOD]
      cases op with
      | enq p =>
          by_cases hfull : b.count = SNIFFER_BUFFER_SIZE
          · obtain ⟨v', _, _, _, o', p'⟩ := enqueue_full b p hv hfull
            obtain ⟨i1, i2, i3⟩ := ih (sniffer_enqueue_packet p b) v'
              (by rw [p']; exact Nat.mod_lt _ hM) (by rw [o']; exact Nat.mod_lt _ hM)
            rw [runOps_cons, stepOp_enq, countPushes_cons_enq,
              countOverflowPushes_cons_enq, stepOp_enq, if_pos hfull]
            refine ⟨i1, ?_, ?_⟩
            · rw [i2, p', Nat.mod_add_mod]
              congr 1
              omega
            · rw [i3, o', Nat.mod_add_mod]
              congr 1
              omega
          · have hlt : b.count < SNIFFER_BUFFER_SIZE := by
              obtain ⟨hv1, _, _⟩ := hv
              omega
            obtain ⟨v', _, _, _, o', p'⟩ := enqueue_not_full b p hv hlt
            obtain ⟨i1, i2, i3⟩ := ih (sniffer_enqueue_packet p b) v'
              (by rw [p']; exact Nat.mod_lt _ hM) (by rw [o']; exact hbo)
            rw [runOps_cons, stepOp_enq, countPushes_cons_enq,
              countOverflowPushes_cons_enq, stepOp_enq, if_neg hfull]
            refine ⟨i1, ?_, ?_⟩
            · rw [i2, p', Nat.mod_add_mod]
              congr 1
              omega
            · rw [i3, o']
              congr 1
              omega
      | deq =>
          by_cases hpos : 0 < b.count
          · obtain ⟨_, v', _, _, o', p'⟩ := dequeue_pos b hv hpos
            obtain ⟨i1, i2, i3⟩ := ih (sniffer_dequeue_packet b).2 v'
              (by rw [p']; exact hbp) (by rw [o']; exact hbo)
            rw [runOps_cons, stepOp_deq, countPushes_cons_deq,
              countOverflowPushes_cons_deq, stepOp_deq]
            exact ⟨i1, by rw [i2, p'], by rw [i3, o']⟩
          · have hz : sniffer_dequeue_packet b = (none, b) := dequeue_zero b (by omega)
            obtain ⟨i1, i2, i3⟩ := ih (sniffer_dequeue_packet b).2
              (by rw [hz]; exact hv) (by rw [hz]; exact hbp) (by rw [hz]; exact hbo)
            rw [runOps_cons, stepOp_deq, countPushes_cons_deq,
              countOverflowPushes_cons_deq, stepOp_deq]
            refine ⟨i1, ?_, ?_⟩
            · rw [i2, hz]
            · rw [i3, hz]

theorem countPushes_replicate_enq (n : Nat) (p : ble_packet) :
    countPushes (List.replicate n (.enq p)) = n := by
  induction n with
  | zero => rfl
  | succ n ih => rw [List.replicate_succ, countPushes_cons_enq, ih]

theorem runOps_append_one (ops : List sniffer_op) (op : sniffer_op)
    (b : packet_buffer_t) :
    runOps (ops ++ [op]) b = stepOp op (runOps ops b) := by
  simp [runOps, List.foldl_append]

/-- After `n` pushes into the initialised buffer the stored `uint32_t`
packet counter reads `n % UINT32_MOD`. -/
theorem replicate_enq_packet_count (n : Nat) (p : ble_packet) :
    (runOps (List.replicate n (.enq p)) initBuffer).packet_count = n % UINT32_MOD := by
  obtain ⟨_, h1, _⟩ := runOps_counters (List.replicate n (.enq p)) initBuffer
    initBuffer_valid (by simp [initBuffer, UINT32_MOD]) (by simp [initBuffer, UINT32_MOD])
  rw [h1, countPushes_replicate_enq]
  simp [initBuffer]

/-! ### Claims -/

/-- C1 (refutation evidence): on payload bytes `[0x02, 0x01]` with
`payload_len = 2`, `parse_advertisement_data` reads payload indices
0, 1 and 2 — index 2 equals `payload_len`, i.e. the decoder reads one
byte past the bound of the input slice, because the guard
`(i + ad_len) > payload_len` admits entries whose last value byte sits
at index `i + ad_len = payload_len`. -/
theorem C1_decoder_reads_index_payload_len :
    parse_reads [2, 1] 2 blePacketZero = [0, 1, 2] ∧
    2 ∈ parse_reads [2, 1] 2 blePacketZero := by
  have h : parse_reads [2, 1] 2 blePacketZero = [0, 1, 2] := by
    simp [parse_reads, parse_loop_reads, byteAt, entryReads, initFields, blePacketZero,
      AD_TYPE_FLAGS, AD_TYPE_SHORT_NAME, AD_TYPE_COMPLETE_NAME, AD_TYPE_TX_POWER,
      AD_TYPE_APPEARANCE, AD_TYPE_UUID16_INCOMPLETE, AD_TYPE_UUID16_COMPLETE,
      AD_TYPE_MFG_DATA]
  exact ⟨h, by rw [h]; simp⟩

/-- C2: decoding scans entries left to right; at the first offset whose
length byte is 0 or whose declared extent `i + L` exceeds the payload
length, the loop stops and returns exactly the state accumulated from
the well-formed entries strictly before that offset (the whole decode
equals the fold of `applyEntry` over those entries). -/
theorem C2_decode_stops_at_malformed (mem : List Nat) (len : Nat) (i : Nat) (b : ble_packet) :
    (byteAt mem i = 0 ∨ len < i + byteAt mem i → parse_loop mem len i b = b) ∧
    parse_loop mem len i b = applyEntries b (chopEntries mem len i) :=
  ⟨fun h => parse_loop_stop mem len i b h, parse_loop_chop mem len i b⟩

/-- Witness for C2 at the spec's scenario: after the well-formed flags
entry `02 01 06`, the entry `05 01 06` at offset 3 declares length 5
with only 3 bytes left, so the loop returns its accumulated state
unchanged. -/
theorem C2_witness :
    parse_loop [2, 1, 6, 5, 1, 6] 6 3 (applyEntry (initFields blePacketZero) 1 [6]) =
      applyEntry (initFields blePacketZero) 1 [6] :=
  (C2_decode_stops_at_malformed [2, 1, 6, 5, 1, 6] 6 3
    (applyEntry (initFields blePacketZero) 1 [6])).1 (by decide)

/-- C9 (refutation evidence): decoding a payload of length 0 leaves the
record's `tx_power` at its prior value (0 for the caller's
zero-initialised record), not at the -128 "absent" sentinel: the
decoder returns before its field-initialisation block when
`payload_len == 0`. -/
theorem C9_counterexample_len_zero_tx_power :
    (parse_advertisement_data [] 0 blePacketZero).tx_power = 0 ∧
    (((parse_advertisement_data [] 0 blePacketZero).tx_power : Int) == (-128 : Int)) = false := by
  exact ⟨rfl, rfl⟩

/-- C9 (amended): a zero-length payload leaves the record exactly as it
was — the optional fields are not re-initialised.  For the
zero-initialised record the ingest path uses, every optional field is
therefore zero/empty (empty name, appearance 0, flags 0, manufacturer
id 0, manufacturer length 0, empty service list), but `tx_power` is 0
rather than the -128 sentinel. -/
theorem C9_amended_len_zero_identity :
    (∀ (mem : List Nat) (b : ble_packet), parse_advertisement_data mem 0 b = b) ∧
    (parse_advertisement_data [] 0 blePacketZero).device_name = [] ∧
    (parse_advertisement_data [] 0 blePacketZero).tx_power = 0 ∧
    (parse_advertisement_data [] 0 blePacketZero).appearance = 0 ∧
    (parse_advertisement_data [] 0 blePacketZero).flags = 0 ∧
    (parse_advertisement_data [] 0 blePacketZero).company_id = 0 ∧
    (parse_advertisement_data [] 0 blePacketZero).mfg_data_len = 0 ∧
    (parse_advertisement_data [] 0 blePacketZero).service_uuids = [] :=
  ⟨fun _ _ => rfl, rfl, rfl, rfl, rfl, rfl, rfl, rfl⟩

/-- C7: decode-time truncation caps — a name value longer than 31 bytes
is truncated to its first 31 bytes; a manufacturer value longer than
2 + 64 bytes keeps exactly the first 64 bytes after the 2-byte id; and
the decoded service-identifier list is exactly the first 8 identifiers
offered by the payload in scan order. -/
theorem C7_truncation_caps :
    (∀ (b : ble_packet) (t : Nat) (d : List Nat),
        (t = AD_TYPE_SHORT_NAME ∨ t = AD_TYPE_COMPLETE_NAME) → 31 < d.length →
        (applyEntry b t d).device_name = d.take 31) ∧
    (∀ (b : ble_packet) (d : List Nat), 66 < d.length →
        (applyEntry b AD_TYPE_MFG_DATA d).mfg_data = (d.drop 2).take 64 ∧
        (applyEntry b AD_TYPE_MFG_DATA d).mfg_data_len = 64) ∧
    (∀ (mem : List Nat) (len : Nat) (b : ble_packet), len ≠ 0 →
        (parse_advertisement_data mem len b).service_uuids =
          (uuidsOfEntries (chopEntries mem len 0)).take 8) := by
  refine ⟨?_, ?_, ?_⟩
  · intro b t d ht _h31
    rcases ht with ht | ht <;> subst ht <;>
      simp [applyEntry, AD_TYPE_FLAGS, AD_TYPE_SHORT_NAME, AD_TYPE_COMPLETE_NAME,
        AD_TYPE_TX_POWER, AD_TYPE_APPEARANCE, AD_TYPE_UUID16_INCOMPLETE,
        AD_TYPE_UUID16_COMPLETE, AD_TYPE_MFG_DATA]
  · intro b d h66
    have h2 : 2 ≤ d.length := by omega
    constructor <;>
      simp [applyEntry, AD_TYPE_FLAGS, AD_TYPE_SHORT_NAME, AD_TYPE_COMPLETE_NAME,
        AD_TYPE_TX_POWER, AD_TYPE_APPEARANCE, AD_TYPE_UUID16_INCOMPLETE,
        AD_TYPE_UUID16_COMPLETE, AD_TYPE_MFG_DATA, h2] <;> omega
  · intro mem len b hlen
    rw [parse_advertisement_data, if_neg hlen, parse_loop_chop]
    have h0 : (initFields b).service_uuids = ([] : List Nat).take 8 := rfl
    rw [applyEntries_uuids (chopEntries mem len 0) (initFields b) [] h0]
    simp

/-- Witness for C7: a 40-byte name is cut to 31 bytes; a 67-byte
manufacturer value keeps 64 payload bytes; a payload offering 10
service identifiers keeps the first 8. -/
theorem C7_witness :
    (applyEntry blePacketZero 9 (List.replicate 40 7)).device_name =
      (List.replicate 40 7).take 31 ∧
    (applyEntry blePacketZero AD_TYPE_MFG_DATA (List.replicate 67 5)).mfg_data =
      ((List.replicate 67 5).drop 2).take 64 ∧
    (applyEntry blePacketZero AD_TYPE_MFG_DATA (List.replicate 67 5)).mfg_data_len = 64 ∧
    (parse_advertisement_data
        (21 :: 2 :: (List.replicate 20 1)) 22 blePacketZero).service_uuids =
      (uuidsOfEntries (chopEntries (21 :: 2 :: (List.replicate 20 1)) 22 0)).take 8 := by
  obtain ⟨hname, hmfg, huuid⟩ := C7_truncation_caps
  refine ⟨hname blePacketZero 9 (List.replicate 40 7) (Or.inr (by decide)) (by simp), ?_, ?_, ?_⟩
  · exact (hmfg blePacketZero (List.replicate 67 5) (by simp)).1
  · exact (hmfg blePacketZero (List.replicate 67 5) (by simp)).2
  · exact huuid (21 :: 2 :: (List.replicate 20 1)) 22 blePacketZero (by decide)

/-- C8 (refutation evidence): for the payload
`03 02 AA BB 03 02 CC DD` — two service-identifier entries — the decoded
service list keeps both identifiers (`0xBBAA` then `0xDDCC`); it does
not equal what the last occurrence alone (`03 02 CC DD`) would produce,
so "the later occurrence overwrites the earlier one" fails for the
service-identifier tags. -/
theorem C8_counterexample_uuid_accumulates :
    (parse_advertisement_data [3, 2, 170, 187, 3, 2, 204, 221] 8 blePacketZero).service_uuids
      = [48042, 56780] ∧
    (parse_advertisement_data [3, 2, 204, 221] 4 blePacketZero).service_uuids = [56780] ∧
    ((parse_advertisement_data [3, 2, 170, 187, 3, 2, 204, 221] 8 blePacketZero).service_uuids
       == (parse_advertisement_data [3, 2, 204, 221] 4 blePacketZero).service_uuids) = false := by
  have h1 : (parse_advertisement_data [3, 2, 170, 187, 3, 2, 204, 221] 8
      blePacketZero).service_uuids = [48042, 56780] := by
    simp [parse_advertisement_data, parse_loop, byteAt, applyEntry, adData, initFields,
      blePacketZero, addUuids, pairsOf, le16, AD_TYPE_FLAGS, AD_TYPE_SHORT_NAME,
      AD_TYPE_COMPLETE_NAME, AD_TYPE_TX_POWER, AD_TYPE_APPEARANCE,
      AD_TYPE_UUID16_INCOMPLETE, AD_TYPE_UUID16_COMPLETE, AD_TYPE_MFG_DATA]
  have h2 : (parse_advertisement_data [3, 2, 204, 221] 4 blePacketZero).service_uuids
      = [56780] := by
    simp [parse_advertisement_data, parse_loop, byteAt, applyEntry, adData, initFields,
      blePacketZero, addUuids, pairsOf, le16, AD_TYPE_FLAGS, AD_TYPE_SHORT_NAME,
      AD_TYPE_COMPLETE_NAME, AD_TYPE_TX_POWER, AD_TYPE_APPEARANCE,
      AD_TYPE_UUID16_INCOMPLETE, AD_TYPE_UUID16_COMPLETE, AD_TYPE_MFG_DATA]
  refine ⟨h1, h2, ?_⟩
  rw [h1, h2]
  rfl

/-- C8 (amended): for the scalar tags (flags, short/complete name,
transmit power, appearance, manufacturer data), a later occurrence that
carries enough value bytes to set the field overwrites any earlier
occurrence; service-identifier entries are instead appended across
occurrences in scan order until the 8-entry cap. -/
theorem C8_amended_last_write_wins :
    (∀ (b : ble_packet) (es : List (Nat × List Nat)) (d : List Nat), 1 ≤ d.length →
        (applyEntries b (es ++ [(AD_TYPE_FLAGS, d)])).flags = d.headD 0) ∧
    (∀ (b : ble_packet) (es : List (Nat × List Nat)) (d : List Nat) (t : Nat),
        (t = AD_TYPE_SHORT_NAME ∨ t = AD_TYPE_COMPLETE_NAME) →
        (applyEntries b (es ++ [(t, d)])).device_name = d.take 31) ∧
    (∀ (b : ble_packet) (es : List (Nat × List Nat)) (d : List Nat), 1 ≤ d.length →
        (applyEntries b (es ++ [(AD_TYPE_TX_POWER, d)])).tx_power = toInt8 (d.headD 0)) ∧
    (∀ (b : ble_packet) (es : List (Nat × List Nat)) (d : List Nat), 2 ≤ d.length →
        (applyEntries b (es ++ [(AD_TYPE_APPEARANCE, d)])).appearance =
          le16 (d.getD 0 0) (d.getD 1 0)) ∧
    (∀ (b : ble_packet) (es : List (Nat × List Nat)) (d : List Nat), 2 ≤ d.length →
        (applyEntries b (es ++ [(AD_TYPE_MFG_DATA, d)])).company_id =
            le16 (d.getD 0 0) (d.getD 1 0) ∧
        (applyEntries b (es ++ [(AD_TYPE_MFG_DATA, d)])).mfg_data = (d.drop 2).take 64) ∧
    (∀ (b : ble_packet) (es : List (Nat × List Nat)) (d : List Nat) (t : Nat),
        (t = AD_TYPE_UUID16_INCOMPLETE ∨ t = AD_TYPE_UUID16_COMPLETE) →
        (applyEntries b (es ++ [(t, d)])).service_uuids =
          addUuids (applyEntries b es).service_uuids (pairsOf d)) := by
  refine ⟨?_, ?_, ?_, ?_, ?_, ?_⟩
  · intro b es d hd
    rw [applyEntries_append, applyEntries_cons, applyEntries_nil]
    simp [applyEntry, AD_TYPE_FLAGS, hd]
  · intro b es d t ht
    rw [applyEntries_append, applyEntries_cons, applyEntries_nil]
    rcases ht with ht | ht <;> subst ht <;>
      simp [applyEntry, AD_TYPE_FLAGS, AD_TYPE_SHORT_NAME, AD_TYPE_COMPLETE_NAME]
  · intro b es d hd
    rw [applyEntries_append, applyEntries_cons, applyEntries_nil]
    simp [applyEntry, AD_TYPE_FLAGS, AD_TYPE_SHORT_NAME, AD_TYPE_COMPLETE_NAME,
      AD_TYPE_TX_POWER, hd]
  · intro b es d hd
    rw [applyEntries_append, applyEntries_cons, applyEntries_nil]
    simp [applyEntry, AD_TYPE_FLAGS, AD_TYPE_SHORT_NAME, AD_TYPE_COMPLETE_NAME,
      AD_TYPE_TX_POWER, AD_TYPE_APPEARANCE, hd]
  · intro b es d hd
    rw [applyEntries_append, applyEntries_cons, applyEntries_nil]
    constructor <;>
      simp [applyEntry, AD_TYPE_FLAGS, AD_TYPE_SHORT_NAME, AD_TYPE_COMPLETE_NAME,
        AD_TYPE_TX_POWER, AD_TYPE_APPEARANCE, AD_TYPE_UUID16_INCOMPLETE,
        AD_TYPE_UUID16_COMPLETE, AD_TYPE_MFG_DATA, hd]
  · intro b es d t ht
    rw [applyEntries_append, applyEntries_cons, applyEntries_nil]
    exact applyEntry_uuid (applyEntries b es) t d ht

/-- Witness for C8 (amended): a second flags entry `[7]` after an
earlier flags entry `[5]` leaves flags 7; a second service-identifier
entry appends to the earlier identifiers rather than replacing them. -/
theorem C8_amended_witness :
    (applyEntries blePacketZero ([(AD_TYPE_FLAGS, [5])] ++ [(AD_TYPE_FLAGS, [7])])).flags =
      [7].headD 0 ∧
    (applyEntries blePacketZero ([(2, [170, 187])] ++ [(2, [204, 221])])).service_uuids =
      addUuids (applyEntries blePacketZero [(2, [170, 187])]).service_uuids
        (pairsOf [204, 221]) := by
  obtain ⟨hflags, _, _, _, _, huuid⟩ := C8_amended_last_write_wins
  exact ⟨hflags blePacketZero [(AD_TYPE_FLAGS, [5])] [7] (by simp),
    huuid blePacketZero [(2, [170, 187])] [204, 221] 2 (Or.inl (by decide))⟩

/-- C3: a push on a buffer at capacity (count = 200) keeps occupancy at
200, increments the overflow counter by exactly 1 (in the `uint32_t`
arithmetic of the stored counter, i.e. modulo 2^32), increments the
cumulative packet counter the same way, and the logical FIFO content
becomes the old content without its single oldest record, with the new
record at the end. -/
theorem C3_push_at_capacity (st : packet_buffer_t) (p : ble_packet)
    (h : bufferValid st) (hc : st.count = SNIFFER_BUFFER_SIZE) :
    (sniffer_enqueue_packet p st).count = SNIFFER_BUFFER_SIZE ∧
    (sniffer_enqueue_packet p st).overflow_count = (st.overflow_count + 1) % UINT32_MOD ∧
    (sniffer_enqueue_packet p st).packet_count = (st.packet_count + 1) % UINT32_MOD ∧
    toListModel (sniffer_enqueue_packet p st) = (toListModel st).drop 1 ++ [p] := by
  obtain ⟨_, hl, hcnt, _, ho, hp⟩ := enqueue_full st p h hc
  exact ⟨hcnt, ho, hp, hl⟩

/-- Witness for C3 on a concrete full buffer. -/
theorem C3_witness :
    (sniffer_enqueue_packet blePacketZero fullBuffer).count = SNIFFER_BUFFER_SIZE ∧
    (sniffer_enqueue_packet blePacketZero fullBuffer).overflow_count =
      (fullBuffer.overflow_count + 1) % UINT32_MOD ∧
    (sniffer_enqueue_packet blePacketZero fullBuffer).packet_count =
      (fullBuffer.packet_count + 1) % UINT32_MOD ∧
    toListModel (sniffer_enqueue_packet blePacketZero fullBuffer) =
      (toListModel fullBuffer).drop 1 ++ [blePacketZero] :=
  C3_push_at_capacity fullBuffer blePacketZero (by decide) rfl

/-- C4: pushing any sequence of records into the freshly initialised
buffer and then draining it returns exactly the non-evicted records —
the most recent 200, i.e. all of them when at most 200 are pushed — in
their original insertion order, after which a further pop signals
empty. -/
theorem C4_fifo_order (L : List ble_packet) :
    (drainAll (pushList L initBuffer)).1 = L.drop (L.length - SNIFFER_BUFFER_SIZE) ∧
    (sniffer_dequeue_packet (drainAll (pushList L initBuffer)).2).1 = none := by
  obtain ⟨hv, hl, _⟩ := pushList_spec L
  obtain ⟨d1, _, d3, _, _⟩ :=
    drainLoop_spec (pushList L initBuffer).count (pushList L initBuffer) hv rfl
  constructor
  · rw [drainAll, d1, hl]
  · rw [drainAll, dequeue_zero _ d3]

/-- C5 (refutation evidence): the stored counters are `uint32_t` and
wrap.  After `2^32` pushes from the initialised buffer, the number of
push calls ever made is `2^32` but the stored `packet_count` reads 0;
and across the single push that follows `2^32 - 1` pushes, the stored
counter goes from `2^32 - 1` to 0 — a decrease, so "equals the number
of push calls ever made" and "monotonically non-decreasing, never
reset" both fail as stated. -/
theorem C5_counterexample_counter_wraps :
    countPushes (List.replicate UINT32_MOD (sniffer_op.enq blePacketZero)) = UINT32_MOD ∧
    (runOps (List.replicate UINT32_MOD (sniffer_op.enq blePacketZero))
      initBuffer).packet_count = 0 ∧
    (runOps (List.replicate (UINT32_MOD - 1) (sniffer_op.enq blePacketZero))
      initBuffer).packet_count = UINT32_MOD - 1 ∧
    (runOps (List.replicate (UINT32_MOD - 1) (sniffer_op.enq blePacketZero) ++
        [sniffer_op.enq blePacketZero]) initBuffer).packet_count = 0 := by
  refine ⟨countPushes_replicate_enq _ _, ?_, ?_, ?_⟩
  · rw [replicate_enq_packet_count]
    simp [UINT32_MOD]
  · rw [replicate_enq_packet_count]
    simp [UINT32_MOD]
  · rw [runOps_append_one, stepOp_enq,
      (enqueue_counts (runOps (List.replicate (UINT32_MOD - 1)
        (sniffer_op.enq blePacketZero)) initBuffer) blePacketZero).1,
      replicate_enq_packet_count]
    simp [UINT32_MOD]

/-- C5 (amended): starting from the initialised buffer, after any
sequence of push/pop operations the stored `uint32_t` packet counter
equals the number of pushes ever made modulo 2^32, and the stored
overflow counter equals the number of pushes made while occupancy was
already at capacity modulo 2^32; no single operation decreases either
stored counter as long as its increment stays below the wrap point, and
nothing else ever resets them. -/
theorem C5_counters_mod_uint32 :
    (∀ ops : List sniffer_op,
      (runOps ops initBuffer).packet_count = countPushes ops % UINT32_MOD ∧
      (runOps ops initBuffer).overflow_count =
        countOverflowPushes initBuffer ops % UINT32_MOD) ∧
    (∀ (op : sniffer_op) (b : packet_buffer_t),
      (b.packet_count + 1 < UINT32_MOD →
        b.packet_count ≤ (stepOp op b).packet_count) ∧
      (b.overflow_count + 1 < UINT32_MOD →
        b.overflow_count ≤ (stepOp op b).overflow_count)) := by
  constructor
  · intro ops
    obtain ⟨_, h1, h2⟩ := runOps_counters ops initBuffer initBuffer_valid
      (by simp [initBuffer, UINT32_MOD]) (by simp [initBuffer, UINT32_MOD])
    exact ⟨by simpa [initBuffer] using h1, by simpa [initBuffer] using h2⟩
  · exact stepOp_mono_below_wrap

/-- Witness for C5 (amended): a push followed by a pop leaves the
packet counter at 1 = 1 % 2^32, and the first push from the initialised
buffer does not decrease the stored counter. -/
theorem C5_witness :
    ((runOps [sniffer_op.enq blePacketZero, sniffer_op.deq] initBuffer).packet_count =
      countPushes [sniffer_op.enq blePacketZero, sniffer_op.deq] % UINT32_MOD) ∧
    initBuffer.packet_count ≤
      (stepOp (sniffer_op.enq blePacketZero) initBuffer).packet_count :=
  ⟨(C5_counters_mod_uint32.1 [sniffer_op.enq blePacketZero, sniffer_op.deq]).1,
   (C5_counters_mod_uint32.2 (sniffer_op.enq blePacketZero) initBuffer).1 (by decide)⟩

/-- C6: the extended ingest callback is a no-op (buffer state and all
counters unchanged) when the address is absent, the payload is absent,
or the payload length is 0; otherwise it pushes exactly the fully
formed record built from the metadata and the decoded payload. -/
theorem C6_ingest_rejects_invalid (mac : Option (List Nat)) (rssi : Int)
    (channel timestamp : Nat) (payload : Option (List Nat))
    (payload_len adv_type addr_type : Nat) (st : packet_buffer_t) :
    (mac = none ∨ payload = none ∨ payload_len = 0 →
      sniffer_on_packet_received_ex mac rssi channel timestamp payload payload_len
        adv_type addr_type st = st) ∧
    (∀ (m pl : List Nat), mac = some m → payload = some pl → payload_len ≠ 0 →
      sniffer_on_packet_received_ex mac rssi channel timestamp payload payload_len
          adv_type addr_type st =
        sniffer_enqueue_packet
          (build_packet m rssi channel timestamp pl payload_len adv_type addr_type) st) := by
  constructor
  · intro h
    rcases mac with _ | m
    · rfl
    · rcases payload with _ | pl
      · rfl
      · rcases h with h | h | h
        · exact absurd h (by simp)
        · exact absurd h (by simp)
        · show (if payload_len = 0 then st else _) = st
          rw [if_pos h]
  · intro m pl hm hpl hlen
    subst hm
    subst hpl
    show (if payload_len = 0 then st else _) = _
    rw [if_neg hlen]

/-- Witness for C6: a missing address is dropped without touching the
buffer; a well-formed observation is pushed as the built record. -/
theorem C6_witness :
    sniffer_on_packet_received_ex none 0 0 0 (some [2, 1, 6]) 3 0 0 initBuffer =
      initBuffer ∧
    sniffer_on_packet_received_ex (some [1, 2, 3, 4, 5, 6]) (-50) 37 100
        (some [2, 1, 6]) 3 0 0 initBuffer =
      sniffer_enqueue_packet
        (build_packet [1, 2, 3, 4, 5, 6] (-50) 37 100 [2, 1, 6] 3 0 0) initBuffer :=
  ⟨(C6_ingest_rejects_invalid none 0 0 0 (some [2, 1, 6]) 3 0 0 initBuffer).1
      (Or.inl rfl),
   (C6_ingest_rejects_invalid (some [1, 2, 3, 4, 5, 6]) (-50) 37 100
      (some [2, 1, 6]) 3 0 0 initBuffer).2 [1, 2, 3, 4, 5, 6] [2, 1, 6] rfl rfl
      (by decide)⟩

/-- C10: the legacy callback produces exactly the state the extended
callback produces for the same arguments with `adv_type = 0` and
`addr_type = 0` — it is a pure adapter, not a second code path. -/
theorem C10_legacy_adapter (mac : Option (List Nat)) (rssi : Int)
    (channel timestamp : Nat) (payload : Option (List Nat)) (payload_len : Nat)
    (st : packet_buffer_t) :
    sniffer_on_packet_received mac rssi channel timestamp payload payload_len st =
      sniffer_on_packet_received_ex mac rssi channel timestamp payload payload_len 0 0 st :=
  rfl
